import Mathlib

/-!
Verification development for the `rev` repository (terminal code-review browser).

Part 1 embeds the paginated streaming pipeline of
`crates/rev/src/git_pull_requests.rs`: the two near-identical pump loops
`GitPullRequests::run_inner` (summary pump, low-water threshold 15) and
`GitPullRequest::run_inner` (detail-enrichment pump, threshold 10, with a
concurrent `get_review` fan-out per fetched page).  The async loop is embedded
as a fuelled state machine: one `Pump.step` is one iteration of the Rust
`loop`; `Pump.run` iterates it and, on normal loop exit, performs the final
drain (`for item in buffer { .. tx.send(item) .. }`).  The mpsc channel is
embedded by a trace of successfully sent items plus a consumer model
`closedAfter : Option Nat` (the receiver disappears after accepting that many
items; `none` = receiver never dropped, every send succeeds).  The provider
(`GitProvider::get_user_reviews_cursor`) is an opaque fallible function of the
cursor it is handed; `get_review` an opaque fallible function of the list
item.  The nondeterministic completion order of the `FuturesUnordered` fan-out
is a parameter `sched`: for each page it yields the order in which the detail
futures complete (theorems hypothesise it is a permutation of the page).

Part 2 embeds the virtualised list widget of
`crates/rev-widget-list/src/lib.rs`: `WidgetListState::{select,
update_view_port}` and `SelectableWidgetList::{next, previous}`.  Heights are
`u16` in Rust and are embedded as `Nat` (no subtraction in the algorithm can
underflow on `u16` values, and the claims under study involve no `u16`
overflow); the two `usize` subtractions of the backward scan that can
underflow — `last_elem - selected` and the loop decrement `i -= 1` — are
embedded explicitly: `update_view_port` returns `none` exactly when Rust
(debug) arithmetic would panic.
-/

namespace Rev

/-- Embedding of `rev_git_provider::models::ReviewList`: one page returned by
`get_user_reviews_cursor`.  The item type is kept abstract (the pump treats
`ReviewListItem` opaquely). -/
structure ReviewList (α : Type) where
  items : List α
  last_cursor : Option String
  has_more : Bool
  deriving Repr, DecidableEq

/-- The listing side of the provider, `get_user_reviews_cursor`, as a function
of the one argument the pump varies: the cursor.  (The requester, org and tag
filters are fixed for a whole run in the source, so they are absorbed into the
function.)  `ε` stands for `anyhow::Error`. -/
def Source (ε α : Type) : Type := Option String → Except ε (ReviewList α)

/-- Consumer model for the bounded mpsc channel: a send succeeds exactly when
the receiver is still there.  `closedAfter = some k` means the receiver is
dropped after accepting `k` items; `none` means it never drops, so every send
succeeds.  (mpsc closure is permanent, so success is a prefix property of the
send count.) -/
def sendOk (closedAfter : Option Nat) (sentCount : Nat) : Bool :=
  match closedAfter with
  | none => true
  | some k => sentCount < k

namespace Pump

/-- The local state of one `run_inner` loop: `buffer` is the `VecDeque`
backlog (front at the head), `cursor`, `has_more` and `seen` are the like
named mutable locals.  `sent` and `fetched` are observation traces: `sent`
records every item successfully handed to `tx.send`, `fetched` records the
`items` of every page successfully returned by the listing call.  `α` is the
page item type, `β` the backlog/channel item type (equal to `α` for the
summary pump, the detail record type for the enrichment pump). -/
structure State (α β : Type) where
  buffer : List β
  cursor : Option String
  has_more : Bool
  seen : Nat
  sent : List β
  fetched : List (List α)
  deriving Repr, DecidableEq

/-- The state at the top of `run_inner`, before the first iteration. -/
def init {α β : Type} : State α β :=
  { buffer := [], cursor := none, has_more := true, seen := 0, sent := [], fetched := [] }

/-- Outcome of one loop iteration: `cont` loops again, `stop` is `break` (the
drain loop follows), `fail` is the `?` operator propagating a provider error
out of `run_inner` (no drain). -/
inductive StepRes (α β ε : Type) where
  | cont : State α β → StepRes α β ε
  | stop : State α β → StepRes α β ε
  | fail : State α β → ε → StepRes α β ε

/-- The tail of each loop iteration, shared verbatim by both Rust functions:
`if seen > 100 { break } if let Some(item) = buffer.pop_front() { if
tx.send(item).await.is_err() { break } }`.  A failed send loses the popped
item and breaks. -/
def popSend {α β ε : Type} (closedAfter : Option Nat) (s : State α β) : StepRes α β ε :=
  if 100 < s.seen then .stop s
  else
    match s.buffer with
    | [] => .cont s
    | item :: rest =>
      if sendOk closedAfter s.sent.length then
        .cont { s with buffer := rest, sent := s.sent ++ [item] }
      else
        .stop { s with buffer := rest }

/-- The refill branch of a loop iteration (taken when `buffer.len() <=
threshold && has_more`): call the listing provider, update `has_more`,
`cursor`, `seen`, extend the backlog.  `expand` is what the page's items
contribute to the backlog together with an optional fan-out error: the
summary pump appends the items themselves (`GitPullRequests.expand`), the
enrichment pump the joined detail results (`GitPullRequest.expand`); its
first argument is the number of pages fetched so far.  A fan-out error is
returned from `run_inner` before the `if !has_more` check, with the backlog
already extended by the details that had completed.

`fetchState s rl adds` is the state right after a successful listing call
returning `rl` whose page contributed `adds` to the backlog: `has_more`,
`cursor` and `seen` updated, `adds` appended to the backlog, and the page
recorded in the `fetched` trace. -/
def fetchState {α β : Type} (s : State α β) (rl : ReviewList α) (adds : List β) : State α β :=
  { buffer := s.buffer ++ adds, cursor := rl.last_cursor, has_more := rl.has_more,
    seen := s.seen + rl.items.length, sent := s.sent, fetched := s.fetched ++ [rl.items] }

def refill {α β ε : Type} (src : Source ε α) (expand : Nat → List α → List β × Option ε)
    (s : State α β) : StepRes α β ε :=
  match src s.cursor with
  | .error e => .fail s e
  | .ok rl =>
    let p := expand s.fetched.length rl.items
    match p.2 with
    | some e => .fail (fetchState s rl p.1) e
    | none => if rl.has_more then .cont (fetchState s rl p.1) else .stop (fetchState s rl p.1)

/-- One iteration of the `loop` in `run_inner`: the guarded refill branch
(with its two early `break`/`return` exits) followed, when it falls through,
by the cap check and the pop/send. -/
def step {α β ε : Type} (threshold : Nat) (src : Source ε α)
    (expand : Nat → List α → List β × Option ε) (closedAfter : Option Nat)
    (s : State α β) : StepRes α β ε :=
  if s.buffer.length ≤ threshold ∧ s.has_more then
    match refill src expand s with
    | .cont s' => popSend closedAfter s'
    | r => r
  else popSend closedAfter s

/-- The final drain `for item in buffer { if tx.send(item).await.is_err() {
break } }`: items are sent one at a time, stopping at the first failed send. -/
def drain {β : Type} (closedAfter : Option Nat) : List β → List β → List β
  | sent, [] => sent
  | sent, item :: rest =>
    if sendOk closedAfter sent.length then drain closedAfter (sent ++ [item]) rest
    else sent

/-- Result of a completed `run_inner`: the final state (after the drain on
normal exit) and the propagated error, if any.  On the error path the state is
the state at the moment of the `?` (the remaining backlog is simply dropped,
nothing more is sent). -/
structure RunResult (α β ε : Type) where
  state : State α β
  err : Option ε
  deriving Repr, DecidableEq

/-- Fuelled execution of `run_inner` from a given loop state: iterate `step`;
on `stop` run the drain; on `fail` return the error.  `none` means the fuel
ran out before the loop terminated. -/
def run {α β ε : Type} (threshold : Nat) (src : Source ε α)
    (expand : Nat → List α → List β × Option ε) (closedAfter : Option Nat) :
    Nat → State α β → Option (RunResult α β ε)
  | 0, _ => none
  | fuel + 1, s =>
    match step threshold src expand closedAfter s with
    | .cont s' => run threshold src expand closedAfter fuel s'
    | .stop s' =>
      some { state := { s' with sent := drain closedAfter s'.sent s'.buffer, buffer := [] },
             err := none }
    | .fail s' e => some { state := s', err := some e }

end Pump

namespace GitPullRequests

/-- Backlog contribution of a page in `GitPullRequests::run_inner`:
`buffer.extend(review_list.items)` — the items themselves, no error. -/
def expand {α ε : Type} : Nat → List α → List α × Option ε := fun _ items => (items, none)

/-- Embedding of `GitPullRequests::run_inner` (summary pump): low-water
threshold 15, raw items appended to the backlog, run from the initial state. -/
def run_inner {α ε : Type} (src : Source ε α) (closedAfter : Option Nat) (fuel : Nat) :
    Option (Pump.RunResult α α ε) :=
  Pump.run 15 src expand closedAfter fuel Pump.init

end GitPullRequests

/-- Embedding of the detail fan-out of `GitPullRequest::run_inner`: the
`FuturesUnordered` results are processed in completion order (the input list);
`let review = review?` propagates the first error, `if let Some(review) =
review { buffer.push_back(review) }` keeps present results in completion
order and drops absent ones.  Returns the details pushed before the first
error together with that error, if any. -/
def fanout {α β ε : Type} (getReview : α → Except ε (Option β)) :
    List α → List β × Option ε
  | [] => ([], none)
  | x :: xs =>
    match getReview x with
    | .error e => ([], some e)
    | .ok none => fanout getReview xs
    | .ok (some r) =>
      let p := fanout getReview xs
      (r :: p.1, p.2)

namespace GitPullRequest

/-- Backlog contribution of a page in `GitPullRequest::run_inner`: the
fan-out of `get_review` over the page, in completion order `sched n items`
(`n` is the index of the fetch; theorems hypothesise `sched n items` is a
permutation of `items`). -/
def expand {α β ε : Type} (getReview : α → Except ε (Option β))
    (sched : Nat → List α → List α) : Nat → List α → List β × Option ε :=
  fun n items => fanout getReview (sched n items)

/-- Embedding of `GitPullRequest::run_inner` (detail-enrichment pump):
low-water threshold 10, page items replaced by their joined detail fetches,
run from the initial state. -/
def run_inner {α β ε : Type} (src : Source ε α) (getReview : α → Except ε (Option β))
    (sched : Nat → List α → List α) (closedAfter : Option Nat) (fuel : Nat) :
    Option (Pump.RunResult α β ε) :=
  Pump.run 10 src (expand getReview sched) closedAfter fuel Pump.init

end GitPullRequest

/-! Part 2: the virtualised list widget, `crates/rev-widget-list/src/lib.rs`. -/

/-- Embedding of `widget::WidgetListState`: `offset` is the index of the first
item on the screen, `selected` the optional selection. -/
structure WidgetListState where
  offset : Nat
  selected : Option Nat
  deriving Repr, DecidableEq

namespace WidgetListState

/-- Embedding of `WidgetListState::select`: set the selection; clearing it
resets the offset to 0. -/
def select (s : WidgetListState) (index : Option Nat) : WidgetListState :=
  { selected := index, offset := if index.isNone then 0 else s.offset }

/-- The forward scan of `update_view_port`: iterate over
`heights.iter().skip(offset)` with running height `y` and index `i`,
collecting visible heights until the next item would overflow `max_height`
(on overflow, if `truncate`, the overflowing item is kept with the remaining
height `max_height - y`).  Returns whether index `selected` was reached
together with the collected heights. -/
def fwdScan (selected max_height : Nat) (truncate : Bool) :
    List Nat → Nat → Nat → Bool → Bool × List Nat
  | [], _, _, found => (found, [])
  | h :: hs, y, i, found =>
    if max_height < y + h then
      (found, if truncate then [max_height - y] else [])
    else
      let r := fwdScan selected max_height truncate hs (y + h) (i + 1) (found || selected == i)
      (r.1, h :: r.2)

/-- The backward scan of `update_view_port`: iterate over
`heights.iter().rev().skip(last_elem - selected)` (the input list is that
iterator's yield, indices `selected, selected-1, …, 0`) with running height
`y` and index counter `i`, prepending heights while they fit strictly below
`max_height`.  On the first item that would meet or exceed `max_height` the
loop breaks and the new offset is fixed: the truncated item's own index when
`truncate`, the index after it otherwise (`none` in the result means the loop
ended without a break, leaving the offset untouched).  The loop body ends
with the `usize` decrement `i -= 1`; executing it with `i = 0` underflows,
which the embedding reports as `none` (a Rust debug-build panic). -/
def bwdScan (max_height : Nat) (truncate : Bool) :
    List Nat → Nat → Nat → Option (List Nat × Option Nat)
  | [], _, _ => some ([], none)
  | h :: hs, y, i =>
    if max_height ≤ y + h then
      some ((if truncate then [max_height - y] else []), some (if truncate then i else i + 1))
    else if i = 0 then none
    else
      match bwdScan max_height truncate hs (y + h) (i - 1) with
      | none => none
      | some (vs, off) => some (vs ++ [h], off)

/-- Embedding of `WidgetListState::update_view_port`: returns the updated
state and the heights of the rendered window, or `none` where the Rust code
underflows a `usize` subtraction (the `last_elem - selected` skip count, or
the backward scan's `i -= 1`) and panics in a debug build. -/
def update_view_port (s : WidgetListState) (heights : List Nat) (max_height : Nat)
    (truncate : Bool) : Option (WidgetListState × List Nat) :=
  let selected := s.selected.getD 0
  let offset := if selected < s.offset then selected else s.offset
  let fw := fwdScan selected max_height truncate (heights.drop offset) 0 offset false
  if fw.1 then some ({ s with offset := offset }, fw.2)
  else
    let last_elem := heights.length - 1
    if last_elem < selected then none
    else
      match bwdScan max_height truncate (heights.reverse.drop (last_elem - selected)) 0 selected with
      | none => none
      | some (vs, off) => some ({ s with offset := off.getD offset }, vs)

end WidgetListState

/-- Embedding of `SelectableWidgetList`, restricted to its semantic fields:
the rendering-only `style` and `block` fields are omitted, and of the items
only the list itself matters to selection (and only the heights to the
viewport). -/
structure SelectableWidgetList (T : Type) where
  state : WidgetListState
  items : List T
  circular : Bool
  truncate : Bool
  deriving Repr, DecidableEq

namespace SelectableWidgetList

/-- Embedding of `SelectableWidgetList::next`: no-op on an empty collection;
otherwise advance the selection, from the last index wrapping to 0 when
`circular` and staying put otherwise; `None` selects 0. -/
def next {T : Type} (l : SelectableWidgetList T) : SelectableWidgetList T :=
  if l.items.isEmpty then l
  else
    let i :=
      match l.state.selected with
      | some i => if l.items.length - 1 ≤ i then (if l.circular then 0 else i) else i + 1
      | none => 0
    { l with state := l.state.select (some i) }

/-- Embedding of `SelectableWidgetList::previous`: no-op on an empty
collection; otherwise retreat the selection, from index 0 wrapping to the
last index when `circular` and staying put otherwise; `None` selects 0. -/
def previous {T : Type} (l : SelectableWidgetList T) : SelectableWidgetList T :=
  if l.items.isEmpty then l
  else
    let i :=
      match l.state.selected with
      | some i => if i = 0 then (if l.circular then l.items.length - 1 else i) else i - 1
      | none => 0
    { l with state := l.state.select (some i) }

end SelectableWidgetList

/-- Characterisation of a detail result: the present detail of a list item,
`none` when `get_review` failed or resolved to absent. -/
def detailOf {α β ε : Type} (getReview : α → Except ε (Option β)) (x : α) : Option β :=
  match getReview x with
  | .ok (some r) => some r
  | _ => none

/-- One `cont` iteration of the pump loop, as a relation; its reflexive
transitive closure from `Pump.init` describes every state the loop is in at
the top of an iteration during a run. -/
def ContStep {α β ε : Type} (th : Nat) (src : Source ε α)
    (expand : Nat → List α → List β × Option ε) (cl : Option Nat)
    (s s' : Pump.State α β) : Prop :=
  Pump.step (ε := ε) th src expand cl s = .cont s'

/-- A degenerate listing source: every call succeeds with an empty page that
still reports `has_more = true`. -/
def emptySource : Source Unit Unit := fun _ => .ok ⟨[], none, true⟩

/-- The three-page example source of the spec: pages `[A, B]`, `[C]`, then an
empty page with `has_more = false` (the items `A`, `B`, `C` are numbered
`0`, `1`, `2`). -/
def exampleSource : Source Unit Nat := fun c =>
  match c with
  | none => .ok ⟨[0, 1], some "1", true⟩
  | some "1" => .ok ⟨[2], some "2", true⟩
  | some "2" => .ok ⟨[], none, false⟩
  | some _ => .error ()

/-- Three-item selectable list (items carry no content relevant to
navigation), with circular selection, as in the circular-navigation example. -/
def exampleList : SelectableWidgetList Unit :=
  { state := { offset := 0, selected := none }, items := [(), (), ()],
    circular := true, truncate := true }

/-- The same three-item list with circular selection disabled. -/
def exampleListNC : SelectableWidgetList Unit := { exampleList with circular := false }

/-- Example detail lookup for the fan-out: item 0 resolves to absent, every
other item `n` to the detail record `n * 10`. -/
def exampleGetReview : Nat → Except Unit (Option Nat) :=
  fun n => if n = 0 then .ok none else .ok (some (n * 10))

/-! Helper lemmas about the pump. -/

namespace Pump

theorem drain_none {β : Type} (sent l : List β) : drain none sent l = sent ++ l := by
  induction l generalizing sent with
  | nil => simp [drain]
  | cons x xs ih => simp [drain, sendOk, ih]

theorem popSend_cases {α β ε : Type} (cl : Option Nat) (s : State α β) :
    (100 < s.seen ∧ popSend (ε := ε) cl s = .stop s)
    ∨ (s.seen ≤ 100 ∧ s.buffer = [] ∧ popSend (ε := ε) cl s = .cont s)
    ∨ (∃ item rest, s.seen ≤ 100 ∧ s.buffer = item :: rest ∧
        sendOk cl s.sent.length = true ∧
        popSend (ε := ε) cl s = .cont { s with buffer := rest, sent := s.sent ++ [item] })
    ∨ (∃ item rest, s.seen ≤ 100 ∧ s.buffer = item :: rest ∧
        sendOk cl s.sent.length = false ∧
        popSend (ε := ε) cl s = .stop { s with buffer := rest }) := by
  unfold popSend
  by_cases h100 : 100 < s.seen
  · exact Or.inl ⟨h100, by simp [h100]⟩
  · cases hb : s.buffer with
    | nil => exact Or.inr (Or.inl ⟨by omega, rfl, by simp [h100]⟩)
    | cons item rest =>
      cases hok : sendOk cl s.sent.length with
      | true =>
        exact Or.inr (Or.inr (Or.inl ⟨item, rest, by omega, rfl, rfl, by simp [h100, hok]⟩))
      | false =>
        exact Or.inr (Or.inr (Or.inr ⟨item, rest, by omega, rfl, rfl, by simp [h100, hok]⟩))

theorem step_cases {α β ε : Type} (th : Nat) (src : Source ε α)
    (expand : Nat → List α → List β × Option ε) (cl : Option Nat) (s : State α β) :
    (¬ (s.buffer.length ≤ th ∧ s.has_more = true) ∧ step th src expand cl s = popSend cl s)
    ∨ ((s.buffer.length ≤ th ∧ s.has_more = true) ∧
        ((∃ e, src s.cursor = .error e ∧ step th src expand cl s = .fail s e)
         ∨ (∃ rl e, src s.cursor = .ok rl ∧ (expand s.fetched.length rl.items).2 = some e ∧
             step th src expand cl s =
               .fail (fetchState s rl (expand s.fetched.length rl.items).1) e)
         ∨ (∃ rl, src s.cursor = .ok rl ∧ (expand s.fetched.length rl.items).2 = none ∧
             ((rl.has_more = true ∧
               step th src expand cl s =
                 popSend cl (fetchState s rl (expand s.fetched.length rl.items).1))
              ∨ (rl.has_more = false ∧
                 step th src expand cl s =
                   .stop (fetchState s rl (expand s.fetched.length rl.items).1)))))) := by
  by_cases hc : s.buffer.length ≤ th ∧ s.has_more = true
  · refine Or.inr ⟨hc, ?_⟩
    cases hsrc : src s.cursor with
    | error e =>
      exact Or.inl ⟨e, rfl, by simp [step, refill, hc, hsrc]⟩
    | ok rl =>
      cases hex : (expand s.fetched.length rl.items).2 with
      | some e =>
        refine Or.inr (Or.inl ⟨rl, e, rfl, hex, ?_⟩)
        simp [step, refill, hc, hsrc, hex]
      | none =>
        refine Or.inr (Or.inr ⟨rl, rfl, hex, ?_⟩)
        cases hm : rl.has_more with
        | true => exact Or.inl ⟨rfl, by simp [step, refill, hc, hsrc, hex, hm]⟩
        | false => exact Or.inr ⟨rfl, by simp [step, refill, hc, hsrc, hex, hm]⟩
  · exact Or.inl ⟨hc, by simp [step, hc]⟩

theorem cont_cases {α β ε : Type} {th : Nat} {src : Source ε α}
    {expand : Nat → List α → List β × Option ε} {cl : Option Nat} {s s' : State α β}
    (hstep : step th src expand cl s = .cont s') :
    (¬(s.buffer.length ≤ th ∧ s.has_more = true) ∧ s.seen ≤ 100 ∧
      ((s' = s ∧ s.buffer = [])
       ∨ ∃ item rest, s.buffer = item :: rest ∧ sendOk cl s.sent.length = true ∧
          s' = { s with buffer := rest, sent := s.sent ++ [item] }))
    ∨ (∃ rl, (s.buffer.length ≤ th ∧ s.has_more = true) ∧ src s.cursor = .ok rl ∧
        (expand s.fetched.length rl.items).2 = none ∧ rl.has_more = true ∧
        (fetchState s rl (expand s.fetched.length rl.items).1).seen ≤ 100 ∧
        ((s' = fetchState s rl (expand s.fetched.length rl.items).1 ∧
          (fetchState s rl (expand s.fetched.length rl.items).1).buffer = [])
         ∨ ∃ item rest,
            (fetchState s rl (expand s.fetched.length rl.items).1).buffer = item :: rest ∧
            sendOk cl s.sent.length = true ∧
            s' = { fetchState s rl (expand s.fetched.length rl.items).1 with
                    buffer := rest, sent := s.sent ++ [item] })) := by
  rcases step_cases th src expand cl s with ⟨hc, heq⟩ | ⟨hc, hcase⟩
  · rw [heq] at hstep
    rcases popSend_cases cl s with ⟨_, h⟩ | ⟨h100, hb, h⟩ | ⟨item, rest, h100, hb, hok, h⟩
      | ⟨item, rest, _, _, _, h⟩ <;> rw [h] at hstep
    · cases hstep
    · exact Or.inl ⟨hc, h100, Or.inl ⟨(StepRes.cont.inj hstep).symm, hb⟩⟩
    · exact Or.inl ⟨hc, h100, Or.inr ⟨item, rest, hb, hok, (StepRes.cont.inj hstep).symm⟩⟩
    · cases hstep
  · rcases hcase with ⟨e, hsrc, heq⟩ | ⟨rl, e, hsrc, hex, heq⟩ | ⟨rl, hsrc, hex, hrest⟩
    · rw [heq] at hstep; cases hstep
    · rw [heq] at hstep; cases hstep
    · rcases hrest with ⟨hm, heq⟩ | ⟨hm, heq⟩
      · rw [heq] at hstep
        rcases popSend_cases cl (fetchState s rl (expand s.fetched.length rl.items).1) with
          ⟨_, h⟩ | ⟨h100, hb, h⟩ | ⟨item, rest, h100, hb, hok, h⟩ | ⟨item, rest, _, _, _, h⟩ <;>
          rw [h] at hstep
        · cases hstep
        · exact Or.inr ⟨rl, hc, hsrc, hex, hm, h100, Or.inl ⟨(StepRes.cont.inj hstep).symm, hb⟩⟩
        · exact Or.inr ⟨rl, hc, hsrc, hex, hm, h100,
            Or.inr ⟨item, rest, hb, hok, (StepRes.cont.inj hstep).symm⟩⟩
        · cases hstep
      · rw [heq] at hstep; cases hstep

theorem stop_cases {α β ε : Type} {th : Nat} {src : Source ε α}
    {expand : Nat → List α → List β × Option ε} {cl : Option Nat} {s s' : State α β}
    (hstep : step th src expand cl s = .stop s') :
    (¬(s.buffer.length ≤ th ∧ s.has_more = true) ∧
      ((100 < s.seen ∧ s' = s)
       ∨ ∃ item rest, s.seen ≤ 100 ∧ s.buffer = item :: rest ∧
          sendOk cl s.sent.length = false ∧ s' = { s with buffer := rest }))
    ∨ (∃ rl, (s.buffer.length ≤ th ∧ s.has_more = true) ∧ src s.cursor = .ok rl ∧
        (expand s.fetched.length rl.items).2 = none ∧
        ((rl.has_more = false ∧ s' = fetchState s rl (expand s.fetched.length rl.items).1)
         ∨ (rl.has_more = true ∧
            ((100 < (fetchState s rl (expand s.fetched.length rl.items).1).seen ∧
              s' = fetchState s rl (expand s.fetched.length rl.items).1)
             ∨ ∃ item rest,
                (fetchState s rl (expand s.fetched.length rl.items).1).seen ≤ 100 ∧
                (fetchState s rl (expand s.fetched.length rl.items).1).buffer = item :: rest ∧
                sendOk cl s.sent.length = false ∧
                s' = { fetchState s rl (expand s.fetched.length rl.items).1 with
                        buffer := rest })))) := by
  rcases step_cases th src expand cl s with ⟨hc, heq⟩ | ⟨hc, hcase⟩
  · rw [heq] at hstep
    rcases popSend_cases cl s with ⟨h100, h⟩ | ⟨_, _, h⟩ | ⟨item, rest, _, _, _, h⟩
      | ⟨item, rest, h100, hb, hok, h⟩ <;> rw [h] at hstep
    · exact Or.inl ⟨hc, Or.inl ⟨h100, (StepRes.stop.inj hstep).symm⟩⟩
    · cases hstep
    · cases hstep
    · exact Or.inl ⟨hc, Or.inr ⟨item, rest, h100, hb, hok, (StepRes.stop.inj hstep).symm⟩⟩
  · rcases hcase with ⟨e, hsrc, heq⟩ | ⟨rl, e, hsrc, hex, heq⟩ | ⟨rl, hsrc, hex, hrest⟩
    · rw [heq] at hstep; cases hstep
    · rw [heq] at hstep; cases hstep
    · rcases hrest with ⟨hm, heq⟩ | ⟨hm, heq⟩
      · rw [heq] at hstep
        rcases popSend_cases cl (fetchState s rl (expand s.fetched.length rl.items).1) with
          ⟨h100, h⟩ | ⟨_, _, h⟩ | ⟨item, rest, _, _, _, h⟩ | ⟨item, rest, h100, hb, hok, h⟩ <;>
          rw [h] at hstep
        · exact Or.inr ⟨rl, hc, hsrc, hex,
            Or.inr ⟨hm, Or.inl ⟨h100, (StepRes.stop.inj hstep).symm⟩⟩⟩
        · cases hstep
        · cases hstep
        · exact Or.inr ⟨rl, hc, hsrc, hex,
            Or.inr ⟨hm, Or.inr ⟨item, rest, h100, hb, hok, (StepRes.stop.inj hstep).symm⟩⟩⟩
      · rw [heq] at hstep
        exact Or.inr ⟨rl, hc, hsrc, hex, Or.inl ⟨hm, (StepRes.stop.inj hstep).symm⟩⟩

theorem fail_cases {α β ε : Type} {th : Nat} {src : Source ε α}
    {expand : Nat → List α → List β × Option ε} {cl : Option Nat} {s s' : State α β} {e : ε}
    (hstep : step th src expand cl s = .fail s' e) :
    (s.buffer.length ≤ th ∧ s.has_more = true) ∧
    ((src s.cursor = .error e ∧ s' = s)
     ∨ (∃ rl, src s.cursor = .ok rl ∧ (expand s.fetched.length rl.items).2 = some e ∧
         s' = fetchState s rl (expand s.fetched.length rl.items).1)) := by
  rcases step_cases th src expand cl s with ⟨hc, heq⟩ | ⟨hc, hcase⟩
  · rw [heq] at hstep
    rcases popSend_cases cl s with ⟨_, h⟩ | ⟨_, _, h⟩ | ⟨item, rest, _, _, _, h⟩
      | ⟨item, rest, _, _, _, h⟩ <;> rw [h] at hstep <;> cases hstep
  · rcases hcase with ⟨e', hsrc, heq⟩ | ⟨rl, e', hsrc, hex, heq⟩ | ⟨rl, hsrc, hex, hrest⟩
    · rw [heq] at hstep
      obtain ⟨h1, h2⟩ := StepRes.fail.inj hstep
      exact ⟨hc, Or.inl ⟨h2 ▸ hsrc, h1.symm⟩⟩
    · rw [heq] at hstep
      obtain ⟨h1, h2⟩ := StepRes.fail.inj hstep
      exact ⟨hc, Or.inr ⟨rl, hsrc, h2 ▸ hex, h1.symm⟩⟩
    · rcases hrest with ⟨hm, heq⟩ | ⟨hm, heq⟩
      · rw [heq] at hstep
        rcases popSend_cases cl (fetchState s rl (expand s.fetched.length rl.items).1) with
          ⟨_, h⟩ | ⟨_, _, h⟩ | ⟨item, rest, _, _, _, h⟩ | ⟨item, rest, _, _, _, h⟩ <;>
          rw [h] at hstep <;> cases hstep
      · rw [heq] at hstep; cases hstep

theorem run_elim {α β ε : Type} {th : Nat} {src : Source ε α}
    {expand : Nat → List α → List β × Option ε} {cl : Option Nat}
    (I : State α β → Prop) (J : RunResult α β ε → Prop)
    (hcont : ∀ s s', I s → step th src expand cl s = .cont s' → I s')
    (hstop : ∀ s s', I s → step th src expand cl s = .stop s' →
      J { state := { s' with sent := drain cl s'.sent s'.buffer, buffer := [] }, err := none })
    (hfail : ∀ s s' e, I s → step th src expand cl s = .fail s' e →
      J { state := s', err := some e }) :
    ∀ (fuel : Nat) (s : State α β) (r : RunResult α β ε),
      I s → run th src expand cl fuel s = some r → J r := by
  intro fuel
  induction fuel with
  | zero => intro s r _ hrun; simp [run] at hrun
  | succ n ih =>
    intro s r hI hrun
    rw [run] at hrun
    cases hstep : step th src expand cl s with
    | cont s' =>
      rw [hstep] at hrun
      exact ih s' r (hcont s s' hI hstep) hrun
    | stop s' =>
      rw [hstep] at hrun
      exact Option.some.inj hrun ▸ hstop s s' hI hstep
    | fail s' e =>
      rw [hstep] at hrun
      exact Option.some.inj hrun ▸ hfail s s' e hI hstep

theorem run_succ {α β ε : Type} (th : Nat) (src : Source ε α)
    (expand : Nat → List α → List β × Option ε) (cl : Option Nat) (fuel : Nat)
    (s : State α β) :
    run th src expand cl (fuel + 1) s =
      match step th src expand cl s with
      | .cont s' => run th src expand cl fuel s'
      | .stop s' =>
        some { state := { s' with sent := drain cl s'.sent s'.buffer, buffer := [] },
               err := none }
      | .fail s' e => some { state := s', err := some e } := rfl

theorem run_sent_join {α ε : Type} (th : Nat) (src : Source ε α) (fuel : Nat)
    (s : State α α) (r : RunResult α α ε)
    (hinv : s.sent ++ s.buffer = s.fetched.flatten)
    (hrun : run th src GitPullRequests.expand none fuel s = some r)
    (herr : r.err = none) : r.state.sent = r.state.fetched.flatten := by
  have hI : ∀ (t t' : State α α), t.sent ++ t.buffer = t.fetched.flatten →
      step th src GitPullRequests.expand none t = .cont t' ∨
      step th src GitPullRequests.expand none t = .stop t' →
      t'.sent ++ t'.buffer = t'.fetched.flatten := by
    intro t t' hJ hstep
    have hfetch : ∀ rl : ReviewList α,
        (fetchState t rl (GitPullRequests.expand (ε := ε) t.fetched.length rl.items).1).sent ++
          (fetchState t rl (GitPullRequests.expand (ε := ε) t.fetched.length rl.items).1).buffer =
        (fetchState t rl (GitPullRequests.expand (ε := ε) t.fetched.length rl.items).1).fetched.flatten := by
      intro rl
      simp only [fetchState, GitPullRequests.expand, List.flatten_append]
      simp [← List.append_assoc, hJ]
    rcases hstep with hstep | hstep
    · rcases cont_cases hstep with ⟨_, _, ⟨rfl, _⟩ | ⟨item, rest, hb, _, rfl⟩⟩
        | ⟨rl, _, _, _, _, _, ⟨rfl, _⟩ | ⟨item, rest, hb, _, rfl⟩⟩
      · exact hJ
      · simp only []
        rw [List.append_assoc]
        simpa [hb] using hJ
      · exact hfetch rl
      · have := hfetch rl
        rw [hb] at this
        simp only []
        rw [List.append_assoc]
        simpa using this
    · rcases stop_cases hstep with ⟨_, ⟨_, rfl⟩ | ⟨item, rest, _, _, hok, _⟩⟩
        | ⟨rl, _, _, _, ⟨_, rfl⟩ | ⟨_, ⟨_, rfl⟩ | ⟨item, rest, _, _, hok, _⟩⟩⟩
      · exact hJ
      · simp [sendOk] at hok
      · exact hfetch rl
      · exact hfetch rl
      · simp [sendOk] at hok
  refine run_elim (fun t => t.sent ++ t.buffer = t.fetched.flatten)
    (fun r => r.err = none → r.state.sent = r.state.fetched.flatten)
    (fun t t' h hs => hI t t' h (Or.inl hs)) ?_ ?_ fuel s r hinv hrun herr
  · intro t t' h hs _
    have := hI t t' h (Or.inr hs)
    simpa [drain_none] using this
  · intro t t' e _ _ h
    simp at h

theorem run_seen_le {α β ε : Type} (th P : Nat) (src : Source ε α)
    (expand : Nat → List α → List β × Option ε) (cl : Option Nat)
    (hP : ∀ c rl, src c = .ok rl → rl.items.length ≤ P) (fuel : Nat)
    (s : State α β) (r : RunResult α β ε)
    (hseen : s.seen ≤ 100) (hrun : run th src expand cl fuel s = some r) :
    r.state.seen ≤ 100 + P := by
  refine run_elim (fun t => t.seen ≤ 100) (fun r => r.state.seen ≤ 100 + P)
    ?_ ?_ ?_ fuel s r hseen hrun
  · intro t t' _ hstep
    rcases cont_cases hstep with ⟨_, h100, ⟨rfl, _⟩ | ⟨item, rest, _, _, rfl⟩⟩
      | ⟨rl, _, _, _, _, h100, ⟨rfl, _⟩ | ⟨item, rest, _, _, rfl⟩⟩
    · exact h100
    · exact h100
    · exact h100
    · exact h100
  · intro t t' hT hstep
    rcases stop_cases hstep with ⟨_, ⟨h100, rfl⟩ | ⟨item, rest, h100, _, _, rfl⟩⟩
      | ⟨rl, hc, hsrc, _, ⟨_, rfl⟩ | ⟨_, ⟨_, rfl⟩ | ⟨item, rest, _, _, _, rfl⟩⟩⟩
    · simpa using hT.trans (by omega)
    · simpa using hT.trans (by omega)
    · have := hP _ _ hsrc
      simp only [fetchState]
      omega
    · have := hP _ _ hsrc
      simp only [fetchState]
      omega
    · have := hP _ _ hsrc
      simp only [fetchState]
      omega
  · intro t t' e hT hstep
    rcases fail_cases hstep with ⟨hc, ⟨_, rfl⟩ | ⟨rl, hsrc, _, rfl⟩⟩
    · simpa using hT.trans (by omega)
    · have := hP _ _ hsrc
      simp only [fetchState]
      omega

theorem run_seen_sum {α β ε : Type} (th : Nat) (src : Source ε α)
    (expand : Nat → List α → List β × Option ε) (cl : Option Nat) (fuel : Nat)
    (s : State α β) (r : RunResult α β ε)
    (hseen : s.seen = (s.fetched.map List.length).sum)
    (hrun : run th src expand cl fuel s = some r) :
    r.state.seen = (r.state.fetched.map List.length).sum := by
  have hfetch : ∀ (t : State α β) (rl : ReviewList α) (adds : List β),
      t.seen = (t.fetched.map List.length).sum →
      (fetchState t rl adds).seen = ((fetchState t rl adds).fetched.map List.length).sum := by
    intro t rl adds h
    simp [fetchState, h]
  refine run_elim (fun t => t.seen = (t.fetched.map List.length).sum)
    (fun r => r.state.seen = (r.state.fetched.map List.length).sum)
    ?_ ?_ ?_ fuel s r hseen hrun
  · intro t t' hT hstep
    rcases cont_cases hstep with ⟨_, _, ⟨rfl, _⟩ | ⟨item, rest, _, _, rfl⟩⟩
      | ⟨rl, _, _, _, _, _, ⟨rfl, _⟩ | ⟨item, rest, _, _, rfl⟩⟩
    · exact hT
    · exact hT
    · exact hfetch t rl (expand t.fetched.length rl.items).1 hT
    · exact hfetch t rl (expand t.fetched.length rl.items).1 hT
  · intro t t' hT hstep
    rcases stop_cases hstep with ⟨_, ⟨_, rfl⟩ | ⟨item, rest, _, _, _, rfl⟩⟩
      | ⟨rl, _, _, _, ⟨_, rfl⟩ | ⟨_, ⟨_, rfl⟩ | ⟨item, rest, _, _, _, rfl⟩⟩⟩
    · exact hT
    · exact hT
    · exact hfetch t rl (expand t.fetched.length rl.items).1 hT
    · exact hfetch t rl (expand t.fetched.length rl.items).1 hT
    · exact hfetch t rl (expand t.fetched.length rl.items).1 hT
  · intro t t' e hT hstep
    rcases fail_cases hstep with ⟨_, ⟨_, rfl⟩ | ⟨rl, _, _, rfl⟩⟩
    · exact hT
    · exact hfetch t rl (expand t.fetched.length rl.items).1 hT

theorem step_progress {α β ε : Type} (th : Nat) (src : Source ε α)
    (expand : Nat → List α → List β × Option ε) (cl : Option Nat)
    (H : ∀ c rl, src c = .ok rl → rl.has_more = true → rl.items ≠ [])
    (s : State α β) (hm : s.has_more = true) :
    (∃ r, run th src expand cl 1 s = some r) ∨
    (∃ s', step th src expand cl s = .cont s' ∧ s'.has_more = true ∧ s'.seen ≤ 100 ∧
      (s.seen < s'.seen ∨ (s'.seen = s.seen ∧ s'.buffer.length < s.buffer.length))) := by
  cases hstep : step th src expand cl s with
  | cont s' =>
    refine Or.inr ⟨s', rfl, ?_⟩
    rcases cont_cases hstep with ⟨hc, h100, ⟨rfl, hb⟩ | ⟨item, rest, hb, _, rfl⟩⟩
      | ⟨rl, hc, hsrc, _, hmore, h100, ⟨rfl, _⟩ | ⟨item, rest, _, _, rfl⟩⟩
    · exact absurd ⟨by simp [hb], hm⟩ hc
    · refine ⟨hm, h100, Or.inr ⟨rfl, ?_⟩⟩
      simp [hb]
    · have hne := H _ _ hsrc hmore
      have : 0 < rl.items.length := List.length_pos.mpr hne
      exact ⟨by simp [fetchState, hmore], h100, Or.inl (by simp [fetchState]; omega)⟩
    · have hne := H _ _ hsrc hmore
      have : 0 < rl.items.length := List.length_pos.mpr hne
      exact ⟨by simp [fetchState, hmore], h100, Or.inl (by simp [fetchState]; omega)⟩
  | stop s' =>
    exact Or.inl ⟨_, by rw [run, hstep]⟩
  | fail s' e =>
    exact Or.inl ⟨_, by rw [run, hstep]⟩

theorem run_terminates_aux {α β ε : Type} (th : Nat) (src : Source ε α)
    (expand : Nat → List α → List β × Option ε) (cl : Option Nat)
    (H : ∀ c rl, src c = .ok rl → rl.has_more = true → rl.items ≠ []) :
    ∀ (k b : Nat) (s : State α β), s.has_more = true → 101 - s.seen ≤ k →
      s.buffer.length ≤ b → ∃ fuel r, run th src expand cl fuel s = some r := by
  intro k
  induction k with
  | zero =>
    intro b s hm hk _
    rcases step_progress th src expand cl H s hm with ⟨r, hr⟩ | ⟨s', _, _, h100, hdec⟩
    · exact ⟨1, r, hr⟩
    · omega
  | succ k ihk =>
    intro b
    induction b with
    | zero =>
      intro s hm hk hb
      rcases step_progress th src expand cl H s hm with ⟨r, hr⟩ | ⟨s', hstep, hm', h100, hdec⟩
      · exact ⟨1, r, hr⟩
      · rcases hdec with hlt | ⟨_, hblt⟩
        · obtain ⟨fuel, r, hr⟩ := ihk s'.buffer.length s' hm' (by omega) le_rfl
          exact ⟨fuel + 1, r, by rw [run, hstep]; exact hr⟩
        · omega
    | succ b ihb =>
      intro s hm hk hb
      rcases step_progress th src expand cl H s hm with ⟨r, hr⟩ | ⟨s', hstep, hm', h100, hdec⟩
      · exact ⟨1, r, hr⟩
      · rcases hdec with hlt | ⟨hseq, hblt⟩
        · obtain ⟨fuel, r, hr⟩ := ihk s'.buffer.length s' hm' (by omega) le_rfl
          exact ⟨fuel + 1, r, by rw [run, hstep]; exact hr⟩
        · obtain ⟨fuel, r, hr⟩ := ihb s' hm' (by omega) (by omega)
          exact ⟨fuel + 1, r, by rw [run, hstep]; exact hr⟩

theorem run_terminates {α β ε : Type} (th : Nat) (src : Source ε α)
    (expand : Nat → List α → List β × Option ε) (cl : Option Nat)
    (H : ∀ c rl, src c = .ok rl → rl.has_more = true → rl.items ≠ []) :
    ∃ fuel r, run th src expand cl fuel (init (α := α) (β := β)) = some r :=
  run_terminates_aux th src expand cl H 101 0 init rfl (by simp [init]) (by simp [init])

theorem run_inf {α ε : Type} (th : Nat) (src : Source ε α)
    (hok : ∀ c, ∃ rl, src c = .ok rl ∧ rl.has_more = true) (fuel : Nat)
    (s : State α α) (r : RunResult α α ε) (hm : s.has_more = true)
    (hrun : run th src GitPullRequests.expand none fuel s = some r) :
    r.err = none ∧ 100 < r.state.seen := by
  refine run_elim (fun t => t.has_more = true)
    (fun r => r.err = none ∧ 100 < r.state.seen) ?_ ?_ ?_ fuel s r hm hrun
  · intro t t' hT hstep
    rcases cont_cases hstep with ⟨_, _, ⟨rfl, _⟩ | ⟨item, rest, _, _, rfl⟩⟩
      | ⟨rl, _, _, _, hmore, _, ⟨rfl, _⟩ | ⟨item, rest, _, _, rfl⟩⟩
    · exact hT
    · exact hT
    · simp [fetchState, hmore]
    · simp [fetchState, hmore]
  · intro t t' hT hstep
    rcases stop_cases hstep with ⟨_, ⟨h100, rfl⟩ | ⟨item, rest, _, _, hsend, rfl⟩⟩
      | ⟨rl, _, hsrc, _, ⟨hmore, rfl⟩ | ⟨_, ⟨h100, rfl⟩ | ⟨item, rest, _, _, hsend, rfl⟩⟩⟩
    · exact ⟨rfl, h100⟩
    · simp [sendOk] at hsend
    · obtain ⟨rl', hsrc', hmore'⟩ := hok t.cursor
      rw [hsrc] at hsrc'
      cases Except.ok.inj hsrc'
      simp [hmore'] at hmore
    · exact ⟨rfl, h100⟩
    · simp [sendOk] at hsend
  · intro t t' e hT hstep
    rcases fail_cases hstep with ⟨_, ⟨hsrc, h⟩ | ⟨rl, _, hex, h⟩⟩
    · obtain ⟨rl', hsrc', _⟩ := hok t.cursor
      rw [hsrc] at hsrc'
      cases hsrc'
    · simp [GitPullRequests.expand] at hex

theorem contStep_buffer_le {α β ε : Type} (th P : Nat) (src : Source ε α)
    (expand : Nat → List α → List β × Option ε) (cl : Option Nat)
    (hP : ∀ c rl, src c = .ok rl → rl.items.length ≤ P)
    (hE : ∀ n l, (expand n l).1.length ≤ l.length) (s s' : State α β)
    (hstep : step th src expand cl s = .cont s')
    (hb : s.buffer.length ≤ th + P) : s'.buffer.length ≤ th + P := by
  rcases cont_cases hstep with ⟨_, _, ⟨rfl, _⟩ | ⟨item, rest, hbuf, _, rfl⟩⟩
    | ⟨rl, hc, hsrc, _, _, _, ⟨rfl, _⟩ | ⟨item, rest, hbuf, _, rfl⟩⟩
  · exact hb
  · simp only [List.length_cons] at hb ⊢
    rw [hbuf] at hb
    simp at hb
    omega
  · have h1 := hP _ _ hsrc
    have h2 := hE s.fetched.length rl.items
    simp only [fetchState, List.length_append]
    omega
  · have h1 := hP _ _ hsrc
    have h2 := hE s.fetched.length rl.items
    have : (fetchState s rl (expand s.fetched.length rl.items).1).buffer.length ≤ th + P := by
      simp only [fetchState, List.length_append]
      omega
    rw [hbuf] at this
    simp only [List.length_cons] at this ⊢
    omega

end Pump


theorem fanout_snd_none_eq {α β ε : Type} (g : α → Except ε (Option β)) (l : List α)
    (h : (fanout g l).2 = none) : (fanout g l).1 = l.filterMap (detailOf g) := by
  induction l with
  | nil => simp [fanout]
  | cons x xs ih =>
    cases hg : g x with
    | error e => simp [fanout, hg] at h
    | ok o =>
      cases o with
      | none =>
        rw [fanout, hg] at h ⊢
        simp only [List.filterMap_cons, detailOf, hg]
        exact ih h
      | some r =>
        rw [fanout, hg] at h ⊢
        simp only [List.filterMap_cons, detailOf, hg]
        simpa using ih (by simpa using h)


theorem reach_buffer_le {α β ε : Type} (th P : Nat) (src : Source ε α)
    (expand : Nat → List α → List β × Option ε) (cl : Option Nat)
    (hP : ∀ c rl, src c = .ok rl → rl.items.length ≤ P)
    (hE : ∀ n l, (expand n l).1.length ≤ l.length) (s : Pump.State α β)
    (hreach : Relation.ReflTransGen (ContStep th src expand cl) Pump.init s) :
    s.buffer.length ≤ th + P := by
  induction hreach with
  | refl => simp [Pump.init]
  | tail hab hbc ih => exact Pump.contStep_buffer_le th P src expand cl hP hE _ _ hbc ih


theorem run_empty_none : ∀ (fuel : Nat) (s : Pump.State Unit Unit), s.buffer = [] →
    s.has_more = true → s.seen = 0 →
    Pump.run 15 emptySource GitPullRequests.expand none fuel s = none := by
  intro fuel
  induction fuel with
  | zero => intro s _ _ _; rfl
  | succ n ih =>
    intro s hb hm hs
    have hstep : Pump.step 15 emptySource GitPullRequests.expand none s =
        .cont (Pump.fetchState s ⟨[], none, true⟩ []) := by
      simp [Pump.step, Pump.refill, emptySource, GitPullRequests.expand, hb, hm,
        Pump.popSend, Pump.fetchState, hs]
    rw [Pump.run, hstep]
    exact ih _ (by simp [Pump.fetchState, hb]) rfl (by simp [Pump.fetchState, hs])


theorem fwdScan_found_true (selected max_height : Nat) (truncate : Bool) :
    ∀ (l : List Nat) (y i : Nat),
      (WidgetListState.fwdScan selected max_height truncate l y i true).1 = true := by
  intro l
  induction l with
  | nil => intro y i; rfl
  | cons h hs ih =>
    intro y i
    by_cases hlt : max_height < y + h
    · simp [WidgetListState.fwdScan, hlt]
    · simp [WidgetListState.fwdScan, hlt, ih]

theorem fwdScan_not_found (selected max_height : Nat) (truncate : Bool) :
    ∀ (l : List Nat) (y i : Nat), i ≤ selected → selected - i < l.length →
      (WidgetListState.fwdScan selected max_height truncate l y i false).1 = false →
      max_height < y + (l.take (selected - i + 1)).sum := by
  intro l
  induction l with
  | nil => intro y i _ h2 _; simp at h2
  | cons h hs ih =>
    intro y i hle hlen hfound
    have htake : selected - i + 1 = (selected - i) + 1 := rfl
    by_cases hlt : max_height < y + h
    · rw [htake, List.take_succ_cons, List.sum_cons]
      omega
    · by_cases heq : selected = i
      · rw [WidgetListState.fwdScan] at hfound
        simp only [if_neg hlt] at hfound
        have : (selected == i) = true := beq_iff_eq.mpr heq
        rw [this] at hfound
        simp only [Bool.or_true] at hfound
        rw [fwdScan_found_true] at hfound
        cases hfound
      · have hlt2 : i < selected := lt_of_le_of_ne hle fun h => heq h.symm
        rw [WidgetListState.fwdScan] at hfound
        simp only [if_neg hlt] at hfound
        have hbeq : (selected == i) = false := beq_eq_false_iff_ne.mpr heq
        rw [hbeq] at hfound
        simp only [Bool.or_false] at hfound
        have hrec := ih (y + h) (i + 1) (by omega) (by simp at hlen ⊢; omega) hfound
        have harith : selected - (i + 1) + 1 = selected - i := by omega
        rw [harith] at hrec
        rw [htake, List.take_succ_cons, List.sum_cons]
        omega

theorem bwdScan_isSome (max_height : Nat) (truncate : Bool) :
    ∀ (l : List Nat) (y i : Nat), max_height ≤ y + (l.take (i + 1)).sum →
      (WidgetListState.bwdScan max_height truncate l y i).isSome = true := by
  intro l
  induction l with
  | nil => intro y i _; rfl
  | cons h hs ih =>
    intro y i hsum
    by_cases hge : max_height ≤ y + h
    · simp [WidgetListState.bwdScan, hge]
    · rw [List.take_succ_cons, List.sum_cons] at hsum
      have hi : i ≠ 0 := by
        intro h0
        subst h0
        simp at hsum
        omega
      rw [WidgetListState.bwdScan]
      simp only [if_neg hge, if_neg hi]
      have hrec := ih (y + h) (i - 1) (by
        have h1 : i - 1 + 1 = i := by omega
        rw [h1]
        omega)
      cases hbw : WidgetListState.bwdScan max_height truncate hs (y + h) (i - 1) with
      | none => rw [hbw] at hrec; cases hrec
      | some p => cases p with | mk vs off => simp

theorem reverse_drop_eq_take_reverse (l : List Nat) (k : Nat) :
    l.reverse.drop (l.length - k) = (l.take k).reverse := by
  have h1 : l.reverse = (l.drop k).reverse ++ (l.take k).reverse := by
    rw [← List.reverse_append, List.take_append_drop]
  have h2 : (l.drop k).reverse.length = l.length - k := by simp
  rw [h1, ← h2, List.drop_left]

theorem update_view_port_isSome (s : WidgetListState) (heights : List Nat)
    (max_height : Nat) (truncate : Bool) (hne : heights ≠ [])
    (hsel : s.selected = none ∨ ∃ i, s.selected = some i ∧ i < heights.length) :
    (s.update_view_port heights max_height truncate).isSome = true := by
  have hlen : 0 < heights.length := List.length_pos.mpr hne
  have hsel0 : s.selected.getD 0 < heights.length := by
    rcases hsel with h | ⟨i, h, hi⟩
    · simpa [h] using hlen
    · simpa [h] using hi
  rw [WidgetListState.update_view_port]
  simp only []
  set sel := s.selected.getD 0 with hseldef
  set off := if sel < s.offset then sel else s.offset with hoffdef
  have hoffle : off ≤ sel := by
    rw [hoffdef]
    split
    · omega
    · omega
  cases hfw : (WidgetListState.fwdScan sel max_height truncate (heights.drop off) 0 off false).1 with
  | true => simp [hfw]
  | false =>
    simp only [hfw, Bool.false_eq_true, if_false]
    have hcond : ¬(heights.length - 1 < sel) := by omega
    rw [if_neg hcond]
    have hnf := fwdScan_not_found sel max_height truncate (heights.drop off) 0 off hoffle
      (by simp; omega) hfw
    have hL : heights.reverse.drop (heights.length - 1 - sel) =
        (heights.take (sel + 1)).reverse := by
      have h1 : heights.length - 1 - sel = heights.length - (sel + 1) := by omega
      rw [h1, reverse_drop_eq_take_reverse]
    have hsplit : (heights.take (sel + 1)).sum =
        (heights.take off).sum + ((heights.drop off).take (sel - off + 1)).sum := by
      have h1 : sel + 1 = off + (sel - off + 1) := by omega
      rw [h1, List.take_add, List.sum_append]
    have hsum : max_height ≤
        0 + (((heights.take (sel + 1)).reverse).take (sel + 1)).sum := by
      have h2 : ((heights.take (sel + 1)).reverse).length ≤ sel + 1 := by simp
      rw [List.take_of_length_le h2, List.sum_reverse]
      omega
    have hbsome := bwdScan_isSome max_height truncate
      ((heights.take (sel + 1)).reverse) 0 sel hsum
    rw [← hL] at hbsome
    cases hbw : WidgetListState.bwdScan max_height truncate
        (heights.reverse.drop (heights.length - 1 - sel)) 0 sel with
    | none => rw [hbw] at hbsome; cases hbsome
    | some p =>
      cases p with
      | mk vs o => simp [hbw]

theorem fanout_length_le {α β ε : Type} (g : α → Except ε (Option β)) (l : List α) :
    (fanout g l).1.length ≤ l.length := by
  induction l with
  | nil => simp [fanout]
  | cons x xs ih =>
    cases hg : g x with
    | error e => simp [fanout, hg]
    | ok o =>
      cases o with
      | none => simp [fanout, hg]; omega
      | some r => simp [fanout, hg]; omega

/-! The claims. -/

/-- C1: for every source, in a run where all channel sends succeed
(`closedAfter = none`) that ends without a provider error, the pump delivers
exactly the concatenation of the fetched pages, in order (FIFO across pages);
in particular for the example source with pages `[0,1]`, `[2]`, `[]`
(has_more=false) the consumer observes exactly `0, 1, 2` and the run ends
(the channel closes). -/
theorem claim_C1 :
    (∀ (α ε : Type) (src : Source ε α) (fuel : Nat) (r : Pump.RunResult α α ε),
        GitPullRequests.run_inner src none fuel = some r → r.err = none →
        r.state.sent = r.state.fetched.flatten) ∧
    GitPullRequests.run_inner exampleSource none 3 =
      some ⟨⟨[], none, false, 3, [0, 1, 2], [[0, 1], [2], []]⟩, none⟩ := by
  constructor
  · intro α ε src fuel r hrun herr
    exact Pump.run_sent_join 15 src fuel Pump.init r (by simp [Pump.init]) hrun herr
  · decide

/-- Witness for C1: the general FIFO theorem applied to the concrete
three-page example run. -/
theorem claim_C1_witness :
    ∃ r : Pump.RunResult Nat Nat Unit,
      GitPullRequests.run_inner exampleSource none 3 = some r ∧
      r.state.sent = r.state.fetched.flatten := by
  refine ⟨⟨⟨[], none, false, 3, [0, 1, 2], [[0, 1], [2], []]⟩, none⟩, by decide, ?_⟩
  exact claim_C1.1 Nat Unit exampleSource 3 _ (by decide) rfl

/-- C2: for heights `[3,3,3,3,3]`, `max_height = 7`, `selected = 4`, offset
starting at 0: with `truncate = false`, `update_view_port` returns offset 3
(or later) with item 4 inside the rendered window and the returned heights
summing to at most 7; with `truncate = true` the returned heights contain a
partial height strictly less than 3 and sum to exactly 7. -/
theorem claim_C2 :
    (∃ st vh, WidgetListState.update_view_port ⟨0, some 4⟩ [3, 3, 3, 3, 3] 7 false =
        some (st, vh) ∧ 3 ≤ st.offset ∧ st.offset ≤ 4 ∧ 4 < st.offset + vh.length ∧
        vh.sum ≤ 7) ∧
    (∃ st vh, WidgetListState.update_view_port ⟨0, some 4⟩ [3, 3, 3, 3, 3] 7 true =
        some (st, vh) ∧ (∃ h, h ∈ vh ∧ h < 3) ∧ vh.sum = 7 ∧ st.offset ≤ 4 ∧
        4 < st.offset + vh.length) := by
  constructor
  · exact ⟨⟨3, some 4⟩, [3, 3], by decide, by decide, by decide, by decide, by decide⟩
  · exact ⟨⟨2, some 4⟩, [1, 3, 3], by decide, ⟨1, by decide, by decide⟩, by decide,
      by decide, by decide⟩

/-- C3: (a) for every source whose pages hold at most `P` items, a completed
summary-pump run has fetched at most `100 + P` items in total (a page is only
requested while the running total is at most the cap 100); (b) for an
infinite source (every page has exactly `P > 0` items and `has_more = true`),
the run terminates, ends without error, its total strictly exceeds the cap
while staying at most `100 + P`, and everything fetched is delivered. -/
theorem claim_C3 :
    (∀ (α ε : Type) (src : Source ε α) (P : Nat) (cl : Option Nat) (fuel : Nat)
        (r : Pump.RunResult α α ε),
        (∀ c rl, src c = .ok rl → rl.items.length ≤ P) →
        GitPullRequests.run_inner src cl fuel = some r →
        (r.state.fetched.map List.length).sum ≤ 100 + P) ∧
    (∀ (α ε : Type) (src : Source ε α) (P : Nat), 0 < P →
        (∀ c, ∃ rl, src c = .ok rl ∧ rl.items.length = P ∧ rl.has_more = true) →
        ∃ fuel r, GitPullRequests.run_inner src none fuel = some r ∧ r.err = none ∧
          100 < r.state.seen ∧ r.state.seen ≤ 100 + P ∧
          r.state.seen = (r.state.fetched.map List.length).sum ∧
          r.state.sent = r.state.fetched.flatten) := by
  constructor
  · intro α ε src P cl fuel r hP hrun
    have h1 := Pump.run_seen_le 15 P src GitPullRequests.expand cl hP fuel Pump.init r
      (by simp [Pump.init]) hrun
    have h2 := Pump.run_seen_sum 15 src GitPullRequests.expand cl fuel Pump.init r
      (by simp [Pump.init]) hrun
    rw [← h2]
    exact h1
  · intro α ε src P hP0 hconst
    have H : ∀ c rl, src c = .ok rl → rl.has_more = true → rl.items ≠ [] := by
      intro c rl h _ hnil
      obtain ⟨rl', h', hlen, _⟩ := hconst c
      rw [h] at h'
      cases Except.ok.inj h'
      rw [hnil] at hlen
      simp at hlen
      omega
    have hP : ∀ c rl, src c = .ok rl → rl.items.length ≤ P := by
      intro c rl h
      obtain ⟨rl', h', hlen, _⟩ := hconst c
      rw [h] at h'
      cases Except.ok.inj h'
      omega
    have hok : ∀ c, ∃ rl, src c = .ok rl ∧ rl.has_more = true := by
      intro c
      obtain ⟨rl, h, _, hm⟩ := hconst c
      exact ⟨rl, h, hm⟩
    obtain ⟨fuel, r, hrun⟩ := Pump.run_terminates 15 src GitPullRequests.expand none H
    have hinf := Pump.run_inf 15 src hok fuel Pump.init r rfl hrun
    have hle := Pump.run_seen_le 15 P src GitPullRequests.expand none hP fuel Pump.init r
      (by simp [Pump.init]) hrun
    have hsum := Pump.run_seen_sum 15 src GitPullRequests.expand none fuel Pump.init r
      (by simp [Pump.init]) hrun
    have hjoin := Pump.run_sent_join 15 src fuel Pump.init r (by simp [Pump.init]) hrun hinf.1
    exact ⟨fuel, r, hrun, hinf.1, hinf.2, hle, hsum, hjoin⟩

/-- Witness for C3: the infinite-source half applied to the constant source
whose every page has ten items. -/
theorem claim_C3_witness :
    ∃ fuel r, GitPullRequests.run_inner
        (fun _ => .ok ⟨List.replicate 10 0, none, true⟩ : Source Unit Nat) none fuel =
        some r ∧ r.err = none ∧
      100 < r.state.seen ∧ r.state.seen ≤ 100 + 10 ∧
      r.state.seen = (r.state.fetched.map List.length).sum ∧
      r.state.sent = r.state.fetched.flatten := by
  exact claim_C3.2 Nat Unit (fun _ => .ok ⟨List.replicate 10 0, none, true⟩) 10
    (by decide) (fun c => ⟨⟨List.replicate 10 0, none, true⟩, rfl, by simp, rfl⟩)

/-- C4: for a page whose detail fetches all complete without error, the
fan-out (which joins all results, processing them in completion order `l'`, a
permutation of the request order `l`) yields exactly the present details of
the completion order — absences dropped, nothing else dropped — and that
result is a permutation (set/multiset-equal, not sequence-equal) of the
present details of the page; the refill step appends exactly that result to
the backlog. -/
theorem claim_C4 :
    (∀ (α β ε : Type) (g : α → Except ε (Option β)) (l l' : List α), l'.Perm l →
        (fanout g l').2 = none →
        (fanout g l').1 = l'.filterMap (detailOf g) ∧
        ((fanout g l').1).Perm (l.filterMap (detailOf g))) ∧
    (∀ (α β ε : Type) (src : Source ε α) (g : α → Except ε (Option β))
        (sched : Nat → List α → List α) (s : Pump.State α β) (rl : ReviewList α),
        src s.cursor = .ok rl →
        (fanout g (sched s.fetched.length rl.items)).2 = none →
        ∃ s', (Pump.refill src (GitPullRequest.expand g sched) s = .cont s' ∨
               Pump.refill src (GitPullRequest.expand g sched) s = .stop s') ∧
          s'.buffer = s.buffer ++ (sched s.fetched.length rl.items).filterMap (detailOf g) ∧
          s'.sent = s.sent) := by
  constructor
  · intro α β ε g l l' hperm hnone
    refine ⟨fanout_snd_none_eq g l' hnone, ?_⟩
    rw [fanout_snd_none_eq g l' hnone]
    exact hperm.filterMap (detailOf g)
  · intro α β ε src g sched s rl hsrc hnone
    refine ⟨Pump.fetchState s rl (fanout g (sched s.fetched.length rl.items)).1, ?_, ?_, rfl⟩
    · rw [Pump.refill, hsrc]
      simp only [GitPullRequest.expand, hnone]
      cases hm : rl.has_more
      · right
        simp
      · left
        simp
    · simp [Pump.fetchState, fanout_snd_none_eq g _ hnone]

/-- Witness for C4: the fan-out characterisation applied to the page
`[0, 1, 2]` completing in order `[2, 1, 0]`, where item 0 is absent. -/
theorem claim_C4_witness :
    (fanout exampleGetReview [2, 1, 0]).1 = [2, 1, 0].filterMap (detailOf exampleGetReview) ∧
    ((fanout exampleGetReview [2, 1, 0]).1).Perm
      ([0, 1, 2].filterMap (detailOf exampleGetReview)) :=
  claim_C4.1 Nat Nat Unit exampleGetReview [0, 1, 2] [2, 1, 0] (by decide) (by decide)

/-- C5: if any single detail fetch of a page's fan-out fails, the error
propagates: the enrichment run terminates at that iteration with the failed
page's error, and nothing is delivered beyond what was already sent before
the page was fetched — in particular no detail of the failing page (not even
siblings that completed before the failure) ever reaches the consumer. -/
theorem claim_C5 :
    ∀ (α β ε : Type) (src : Source ε α) (g : α → Except ε (Option β))
      (sched : Nat → List α → List α) (cl : Option Nat) (fuel : Nat)
      (s : Pump.State α β) (rl : ReviewList α) (e : ε),
      s.buffer.length ≤ 10 → s.has_more = true → src s.cursor = .ok rl →
      (fanout g (sched s.fetched.length rl.items)).2 = some e →
      ∃ r, Pump.run 10 src (GitPullRequest.expand g sched) cl (fuel + 1) s = some r ∧
        r.err = some e ∧ r.state.sent = s.sent := by
  intro α β ε src g sched cl fuel s rl e hbuf hm hsrc hfan
  have hstep : Pump.step 10 src (GitPullRequest.expand g sched) cl s =
      .fail (Pump.fetchState s rl (fanout g (sched s.fetched.length rl.items)).1) e := by
    simp [Pump.step, Pump.refill, hbuf, hm, hsrc, GitPullRequest.expand, hfan]
  refine ⟨⟨Pump.fetchState s rl (fanout g (sched s.fetched.length rl.items)).1, some e⟩,
    ?_, rfl, rfl⟩
  rw [Pump.run, hstep]

/-- Witness for C5: a one-item page whose only detail fetch fails; the run
ends with that error and nothing sent. -/
theorem claim_C5_witness :
    ∃ r, Pump.run 10 (fun _ => .ok ⟨[0], none, true⟩ : Source Unit Nat)
        (GitPullRequest.expand (fun _ => .error ()) (fun _ l => l)) none 1 Pump.init =
        some r ∧ r.err = some () ∧
        r.state.sent = (Pump.init (α := Nat) (β := Nat)).sent :=
  claim_C5 Nat Nat Unit (fun _ => .ok ⟨[0], none, true⟩) (fun _ => .error ())
    (fun _ l => l) none 0 Pump.init ⟨[0], none, true⟩ () (by decide) rfl rfl (by decide)

/-- C6: if a listing call fails, the pump run terminates at that iteration
with exactly the state it had: nothing further is fetched (`fetched`
unchanged), nothing further is sent and the normal-termination drain does not
run (`sent` unchanged even though the backlog may be non-empty), no retry
happens (the result does not depend on the remaining fuel); items sent before
the failure remain delivered, and the consumer sees only the channel close. -/
theorem claim_C6 :
    ∀ (α ε : Type) (src : Source ε α) (cl : Option Nat) (fuel : Nat)
      (s : Pump.State α α) (e : ε),
      s.buffer.length ≤ 15 → s.has_more = true → src s.cursor = .error e →
      Pump.run 15 src GitPullRequests.expand cl (fuel + 1) s =
        some { state := s, err := some e } := by
  intro α ε src cl fuel s e hbuf hm hsrc
  have hstep : Pump.step 15 src (GitPullRequests.expand (ε := ε)) cl s = .fail s e := by
    simp [Pump.step, Pump.refill, hbuf, hm, hsrc]
  rw [Pump.run, hstep]

/-- Witness for C6: a source failing on its first call terminates the run
from the initial state with that error. -/
theorem claim_C6_witness :
    Pump.run 15 (fun _ => .error () : Source Unit Nat) GitPullRequests.expand none 1
        Pump.init = some { state := Pump.init, err := some () } :=
  claim_C6 Nat Unit (fun _ => .error ()) none 0 Pump.init () (by decide) rfl rfl

/-- C7: on the three-item list, three `next` calls from no selection yield
selections 0, 1, 2; a fourth wraps to 0 when circular and stays at 2
otherwise; `previous` on selection 0 wraps to the last index 2 when circular
and stays at 0 otherwise; `next` and `previous` are no-ops on an empty
collection. -/
theorem claim_C7 :
    (exampleList.next.state.selected = some 0) ∧
    (exampleList.next.next.state.selected = some 1) ∧
    (exampleList.next.next.next.state.selected = some 2) ∧
    (exampleList.next.next.next.next.state.selected = some 0) ∧
    (exampleListNC.next.next.next.next.state.selected = some 2) ∧
    (({ exampleList with state := ⟨0, some 0⟩ }).previous.state.selected = some 2) ∧
    (({ exampleListNC with state := ⟨0, some 0⟩ }).previous.state.selected = some 0) ∧
    (∀ (T : Type) (l : SelectableWidgetList T), l.items = [] →
      l.next = l ∧ l.previous = l) := by
  refine ⟨by decide, by decide, by decide, by decide, by decide, by decide, by decide, ?_⟩
  intro T l h
  constructor <;> simp [SelectableWidgetList.next, SelectableWidgetList.previous, h]

/-- Witness for C7: the empty-collection clause applied to a concrete empty
list. -/
theorem claim_C7_witness :
    (⟨⟨0, none⟩, [], true, true⟩ : SelectableWidgetList Unit).next =
        ⟨⟨0, none⟩, [], true, true⟩ ∧
    (⟨⟨0, none⟩, [], true, true⟩ : SelectableWidgetList Unit).previous =
        ⟨⟨0, none⟩, [], true, true⟩ :=
  claim_C7.2.2.2.2.2.2.2 Unit ⟨⟨0, none⟩, [], true, true⟩ rfl

/-- C8: for every source whose pages hold at most `P` items, at the top of
every loop iteration of a pump run (any consumer behaviour) the backlog holds
at most `threshold + P` items — 15 + P for the summary pump, 10 + P for the
enrichment pump (whose completion schedules are permutations of the page) —
because a page is fetched only when the backlog is at or below the low-water
threshold. -/
theorem claim_C8 :
    (∀ (α ε : Type) (src : Source ε α) (cl : Option Nat) (P : Nat),
        (∀ c rl, src c = .ok rl → rl.items.length ≤ P) →
        ∀ s : Pump.State α α,
          Relation.ReflTransGen (ContStep 15 src GitPullRequests.expand cl) Pump.init s →
          s.buffer.length ≤ 15 + P) ∧
    (∀ (α β ε : Type) (src : Source ε α) (g : α → Except ε (Option β))
        (sched : Nat → List α → List α) (cl : Option Nat) (P : Nat),
        (∀ c rl, src c = .ok rl → rl.items.length ≤ P) →
        (∀ n l, (sched n l).Perm l) →
        ∀ s : Pump.State α β,
          Relation.ReflTransGen (ContStep 10 src (GitPullRequest.expand g sched) cl)
            Pump.init s →
          s.buffer.length ≤ 10 + P) := by
  constructor
  · intro α ε src cl P hP s hreach
    exact reach_buffer_le 15 P src GitPullRequests.expand cl hP
      (fun n l => by simp [GitPullRequests.expand]) s hreach
  · intro α β ε src g sched cl P hP hsched s hreach
    refine reach_buffer_le 10 P src (GitPullRequest.expand g sched) cl hP ?_ s hreach
    intro n l
    calc (GitPullRequest.expand g sched n l).1.length
        ≤ (sched n l).length := fanout_length_le g (sched n l)
      _ = l.length := (hsched n l).length_eq

/-- Witness for C8: the summary-pump bound applied to an always-failing
source with page bound 0, at the initial state. -/
theorem claim_C8_witness :
    (Pump.init : Pump.State Nat Nat).buffer.length ≤ 15 + 0 :=
  claim_C8.1 Nat Unit (fun _ => .error ()) none 0
    (fun c rl h => by cases h) Pump.init Relation.ReflTransGen.refl

/-- C9 (implicit): if every page a source returns with `has_more = true` is
non-empty, both pump loops terminate (with sends modelled as always
completing); without that precondition the loop need not terminate: with the
degenerate source that always returns an empty page with `has_more = true`,
the summary pump makes no progress and `run` returns `none` for every fuel. -/
theorem claim_C9 :
    (∀ (α ε : Type) (src : Source ε α),
        (∀ c rl, src c = .ok rl → rl.has_more = true → rl.items ≠ []) →
        ∃ fuel r, GitPullRequests.run_inner src none fuel = some r) ∧
    (∀ (α β ε : Type) (src : Source ε α) (g : α → Except ε (Option β))
        (sched : Nat → List α → List α),
        (∀ c rl, src c = .ok rl → rl.has_more = true → rl.items ≠ []) →
        ∃ fuel r, GitPullRequest.run_inner src g sched none fuel = some r) ∧
    (∀ fuel, GitPullRequests.run_inner emptySource none fuel = none) := by
  refine ⟨?_, ?_, ?_⟩
  · intro α ε src H
    exact Pump.run_terminates 15 src GitPullRequests.expand none H
  · intro α β ε src g sched H
    exact Pump.run_terminates 10 src (GitPullRequest.expand g sched) none H
  · intro fuel
    exact run_empty_none fuel Pump.init rfl rfl rfl

/-- Witness for C9: termination applied to a source whose single page reports
`has_more = false` (the non-empty-page hypothesis holds vacuously). -/
theorem claim_C9_witness :
    ∃ fuel r, GitPullRequests.run_inner
        (fun _ => .ok ⟨[0], none, false⟩ : Source Unit Nat) none fuel = some r :=
  claim_C9.1 Nat Unit (fun _ => .ok ⟨[0], none, false⟩)
    (fun c rl h hm => by cases h; simp at hm)

/-- C10 (implicit): `update_view_port` completes without a `usize` underflow
panic for every non-empty heights sequence, every `max_height` and `truncate`,
provided the selection is `none` or an index strictly below the item count;
`select` performs no bounds check, so an out-of-range selection is reachable
through the public interface, and it makes `update_view_port` underflow
(the embedding returns `none`). -/
theorem claim_C10 :
    (∀ (heights : List Nat) (max_height : Nat) (truncate : Bool) (s : WidgetListState),
        heights ≠ [] →
        (s.selected = none ∨ ∃ i, s.selected = some i ∧ i < heights.length) →
        (s.update_view_port heights max_height truncate).isSome = true) ∧
    ((WidgetListState.select ⟨0, none⟩ (some 1)).selected = some 1) ∧
    (WidgetListState.update_view_port (WidgetListState.select ⟨0, none⟩ (some 1))
        [1] 5 false = none) := by
  refine ⟨?_, by decide, by decide⟩
  intro heights max_height truncate s hne hsel
  exact update_view_port_isSome s heights max_height truncate hne hsel

/-- Witness for C10: the no-panic clause applied to a one-item list with no
selection. -/
theorem claim_C10_witness :
    (WidgetListState.update_view_port ⟨0, none⟩ [1] 5 false).isSome = true :=
  claim_C10.1 [1] 5 false ⟨0, none⟩ (by decide) (Or.inl rfl)

end Rev
